import Mathlib

/-!
Verification of the GeoVision repository against its natural-language
specification.

The repository is a CRUD web application (static frontend JS, a Flutter
shell, a small Node demo backend) whose only algorithmically interesting
subsystem — the RAG engine — exists in the repository solely as markdown
documentation (RAG_FILE_INDEX.md, COMPLETE_RAG_SUMMARY.md): the Python
module it describes (backend/app/rag/*) is not part of the source tree.

Accordingly this development has two layers:

1. Definitions embedded directly from source files that are present,
   chiefly assets/js/chatbot.js (the chat widget: page-context collection,
   navigation detection, message sending) and inventories of every HTTP
   request path and declared function name across the source tree.

2. Definitions explicitly modelled from the specification for the RAG
   components whose code is absent (splitter, embedder, vector store,
   pipeline construction); each such definition's doc comment starts with
   "Modelled from the spec:".

Numeric vectors are modelled over ℚ (exact idealisation of the floats in
the spec); the cosine score is interpreted into ℝ for the analytic claims,
while the vector-store search uses an exact decidable comparison on
rational score representations that is proved equivalent to the real
cosine ordering.
-/

/-! ## Chat widget: assets/js/chatbot.js -/

/-- Embeds chatbot.js collectPageContext's whitespace normalisation,
`text.replace(/\s+/g, " ").trim()`: leading whitespace is removed and every
remaining run of whitespace becomes a single space.  The boolean argument
records whether a whitespace run is pending between two content chars. -/
def squeezeGo : List Char → Bool → List Char
  | [], _ => []
  | c :: rest, pendingWs =>
    if c.isWhitespace then squeezeGo rest true
    else (if pendingWs then [' ', c] else [c]) ++ squeezeGo rest false

/-- Whitespace collapsing as performed by collectPageContext in
assets/js/chatbot.js line 84: collapse runs to single spaces and trim. -/
def collapseWs (cs : List Char) : List Char :=
  squeezeGo (cs.dropWhile Char.isWhitespace) false

/-- Embeds collectPageContext (assets/js/chatbot.js lines 80-92).  The page
state is `none` when reading the DOM throws, `some (innerText, title)`
otherwise.  Text is whitespace-collapsed; if longer than 3500 characters it
is cut to 3500 and suffixed with " ...".  A thrown read yields empty
strings. -/
def collectPageContext : Option (List Char × List Char) → List Char × List Char
  | none => ([], [])
  | some (raw, title) =>
    let t := collapseWs raw
    (if 3500 < t.length then t.take 3500 ++ (" ...".data) else t, title)

/-- Lowercasing as JavaScript's toLowerCase, restricted to the characters
relevant to the navigation tables: ASCII plus the accented Latin letters
occurring in the tables (chatbot.js lines 119-134). -/
def jsLower (c : Char) : Char :=
  if c = 'Á' then 'á' else if c = 'À' then 'à' else if c = 'Â' then 'â'
  else if c = 'Ã' then 'ã' else if c = 'É' then 'é' else if c = 'Ê' then 'ê'
  else if c = 'Í' then 'í' else if c = 'Ó' then 'ó' else if c = 'Ô' then 'ô'
  else if c = 'Õ' then 'õ' else if c = 'Ú' then 'ú' else if c = 'Ç' then 'ç'
  else if c = 'Ü' then 'ü' else if c = 'Ñ' then 'ñ' else c.toLower

/-- Diacritic stripping as performed in chatbot.js tryNavigate via
`normalize("NFD").replace(/[̀-ͯ]/g, "")`, for the precomposed
accented letters that occur in the navigation tables. -/
def stripDiacritic (c : Char) : Char :=
  if c = 'á' ∨ c = 'à' ∨ c = 'â' ∨ c = 'ã' ∨ c = 'ä' then 'a'
  else if c = 'é' ∨ c = 'è' ∨ c = 'ê' ∨ c = 'ë' then 'e'
  else if c = 'í' ∨ c = 'ì' ∨ c = 'î' ∨ c = 'ï' then 'i'
  else if c = 'ó' ∨ c = 'ò' ∨ c = 'ô' ∨ c = 'õ' ∨ c = 'ö' then 'o'
  else if c = 'ú' ∨ c = 'ù' ∨ c = 'û' ∨ c = 'ü' then 'u'
  else if c = 'ç' then 'c'
  else if c = 'ñ' then 'n'
  else c

/-- The normalisation applied to both the user text and the table keys in
tryNavigate: lowercase, then strip diacritics. -/
def jsNorm (s : String) : List Char :=
  s.data.map (fun c => stripDiacritic (jsLower c))

/-- Navigation intent phrases, transcribed from NAV_INTENTS in
assets/js/chatbot.js lines 131-135. -/
def navIntents : List String :=
  ["leva-me", "leva me", "levar", "ir para", "vai para", "vai à", "vai a",
   "vai ao", "abre", "abrir", "mostra", "mostrar", "show me", "go to",
   "take me", "navigate", "open", "navegar", "llévame", "ir a", "abrir",
   "mudar para", "switch to"]

/-- Navigation page table, transcribed from NAV_PAGES in
assets/js/chatbot.js lines 119-128: target url paired with its keyword
list. -/
def navPages : List (String × List String) :=
  [("index.html", ["inicio", "home", "pagina principal", "página principal",
      "landing", "homepage"]),
   ("loja.html", ["loja", "shop", "store", "tienda", "comprar", "compras",
      "produtos", "products", "productos"]),
   ("about.html", ["sectores", "sectors", "setores", "agricultura",
      "agriculture", "agro", "farming", "pecuaria", "pecuária", "livestock",
      "gado", "mineracao", "mineração", "mining", "construcao", "construção",
      "construction", "obras", "infraestrutura", "infrastructure",
      "desminagem", "demining"]),
   ("dashboard.html", ["dashboard", "painel", "panel", "painel de controlo"]),
   ("login.html", ["login", "entrar", "iniciar sessao", "iniciar sessão",
      "sign in", "signin"]),
   ("onboarding.html", ["registo", "registro", "register", "cadastro",
      "criar conta", "sign up", "signup", "onboarding"]),
   ("admin.html", ["admin", "administracao", "administração", "backoffice",
      "back office"]),
   ("about.html", ["sobre", "about", "quem somos", "about us", "acerca"])]

/-- Models JavaScript's `String.prototype.includes`: the needle occurs as a
contiguous subsequence of the haystack. -/
def includesSub (hay needle : List Char) : Bool :=
  decide (needle <:+: hay)

/-- Models JavaScript's `String.prototype.trim`: strip leading and
trailing whitespace. -/
def jsTrim (s : String) : String :=
  String.mk (((s.data.dropWhile Char.isWhitespace).reverse.dropWhile
    Char.isWhitespace).reverse)

/-- Embeds tryNavigate (assets/js/chatbot.js lines 139-158): true exactly
when the normalised text contains a navigation intent phrase and some page
keyword; in that case the widget redirects and issues no HTTP request. -/
def tryNavigate (text : String) : Bool :=
  let lower := jsNorm text
  let hasIntent := navIntents.any (fun i => includesSub lower (jsNorm i))
  hasIntent && navPages.any (fun pg => pg.2.any (fun key => includesSub lower (jsNorm key)))

inductive HttpMethod where
  | get
  | post
deriving DecidableEq, Repr

structure HttpRequest where
  method : HttpMethod
  path : String
deriving DecidableEq, Repr

/-- Embeds the request-issuing behaviour of sendMessage in
assets/js/chatbot.js lines 168-257.  Arguments: the raw input value, the
`sending` re-entrancy flag, whether localStorage holds a gv_token (the
fetchDashboardContext GET is only attempted with a token, lines 97-99), and
the stored active sector (appended as a query string, line 101).  Empty
input or a send in progress issues nothing; a recognised navigation request
redirects and issues nothing; otherwise fetchDashboardContext may issue one
GET and then exactly one POST to /ai/chat is issued (line 220). -/
def sendMessageRequests (rawText : String) (sending : Bool) (hasToken : Bool)
    (activeSector : String) : List HttpRequest :=
  let text := jsTrim rawText
  if text = "" ∨ sending then []
  else if tryNavigate text then []
  else
    (if hasToken then
      [⟨HttpMethod.get,
        "/kpi/context" ++ (if activeSector = "" then "" else "?sector=" ++ activeSector)⟩]
     else []) ++ [⟨HttpMethod.post, "/ai/chat"⟩]

/-- Every endpoint path template that any request call site in the source
tree targets, transcribed from all fetch/http calls: assets/js/auth.mjs
(lines 100, 164, 366), assets/js/auth.js (97, 183), assets/js/loja-shop.js
(46-415), assets/js/dashboard-client.js with its apiGet/apiPost callers
(127-505), assets/js/admin.js (30-127), assets/js/loja.js (267, 307),
assets/js/chatbot.js (103, 220), backend callers in unnamed parts
(gvApi("/projects"), /users/by-email, /contacts/, /api/auth/login), and
geovision_app/lib/services/api_client.dart callers (/kpi/summary,
/products, /orders, /auth/login).  Dynamic URL segments are written as
:name placeholders. -/
def sourceRequestPaths : List String :=
  ["/auth/login", "/auth/register", "/api/auth/login", "/ai/chat",
   "/shop/products", "/shop/cart/:cartId", "/shop/cart/:cartId/items",
   "/shop/cart/:cartId/items/:itemId", "/shop/cart/:cartId/coupon",
   "/shop/checkout/:cartId", "/kpi/context", "/kpi/context?sector=:sector",
   "/kpi/summary", "/kpi/summary?sector=:sector", "/kpi/alerts",
   "/kpi/alerts?sector=:sector", "/orders", "/orders/", "/accounts", "/me",
   "/products/", "/products/:id", "/products", "/projects",
   "/users/by-email/:email", "/contacts/"]

/-- The three RAG boundary endpoints that the markdown documentation
(RAG_FILE_INDEX.md lines 23-27) attributes to routers/ai.py, a file that is
not part of the source tree. -/
def ragBoundaryPaths : List String :=
  ["/ai/chat-rag", "/ai/index-documents", "/ai/retrieve"]

/-- Every named function declared in the source tree: function
declarations and named arrow-function bindings from all JavaScript sources
(assets/js/*.js, *.mjs, app.js, backend-node, tests, and the unnamed
parts 000-008, 016, 018, 019), together with the method names of the Dart
API client and screens (geovision_app/lib and unnamed parts 010-015). -/
def sourceFunctionNames : List String :=
  ["activate", "addToCart", "adminAuthHeaders", "animate", "animateLabel",
   "apiGet", "apiPost", "applyCoupon", "applyImage", "applyImageFromTab",
   "authHeaders", "buildDemoPortfolio", "buildDemoPortfolioForSector",
   "checkoutDemo", "clearCart", "closeCheckoutModal", "closeModal",
   "closeVideo", "collectPageContext", "createToastElement", "createWidget",
   "deleteProduct", "editProduct", "ensureSpinner", "escapeHTML",
   "fetchDashboardContext", "fetchProducts", "fillForm", "formatAOA",
   "formatAOASimple", "generateCartId", "getCartTotal", "getDashboardUrl",
   "getInitials", "getSectorsFromAccount", "getSession", "gvAddToCart",
   "gvApi", "gvClearCart", "gvClearToken", "gvGetToken", "gvLoadCart",
   "gvRemoveFromCart", "gvRenderCart", "gvSaveCart", "gvSetToken",
   "handleAccountCreate", "handleSubmit", "hide", "initAdminOps",
   "initAdminPage", "initCharts", "initCommonUI", "initDashboard",
   "initLoginPage", "initLogoutButtons", "initMapTabs", "initMenuToggle",
   "initSectorForms", "initSectorMiniPanels", "initSession", "initSite",
   "initSmoothAnchors", "initTheme", "initToasts", "initVideoEmbeds",
   "initVideoModal", "injectStyles", "isInVSCode", "loadAlerts",
   "loadAndRender", "loadCart", "loadContacts", "loadDashboard", "loadKpis",
   "loadOrdersOverrideReports", "loadProducts", "loadProductsFromAPI",
   "loadProjects", "mapCategoryLabel", "mapFilterKey", "openCheckoutModal",
   "openModal", "openVideo", "populateAccountSwitcher", "processCheckout",
   "pulsePreview", "readErrorMessage", "refreshCards", "removeFromCart",
   "renderAccountMeta", "renderAlerts", "renderCart",
   "renderCheckoutSummary", "renderHardware", "renderKpis", "renderMessages",
   "renderPipelineTable", "renderProducts", "renderProductsTable",
   "renderProjectsTable", "renderReports", "renderReportsTable",
   "renderSector", "renderSectorTabs", "renderServices", "requireAdmin",
   "requireAdminRole", "requireSession", "resetForm", "saveCart",
   "saveProduct", "sectorGuess", "selectPayment", "sendMessage", "setActive",
   "setToastAndNavigate", "setupFilters", "show", "showAlert",
   "showPaymentInstructions", "showToast", "startAutoRotate",
   "stopAutoRotateTemporariamente", "toggleModal", "toggleTheme",
   "tryNavigate", "updateDemoPanel", "updateIcons", "getJson", "getJsonList",
   "postJson", "saveToken", "clearToken", "hasToken", "build", "createState",
   "dispose", "initState", "_addToCart", "_authHeaders", "_ensureToken",
   "_handleUnauthorized", "_loadKpis", "_loadProducts", "_removeFromCart",
   "_submit", "_titleForIndex"]

/-- Name fragments indicating an implementation of the RAG operations the
claim names — chunk splitting, (vector) embedding, vector search,
retrieval — matched case-insensitively against the declared function
names. -/
def ragOperationFragments : List String :=
  ["split", "embed", "search", "retriev", "chunk", "vector", "cosine"]

/-- A declared function name lowercased, so that fragment matching is
case-insensitive across camelCase boundaries. -/
def lowerName (f : String) : List Char :=
  f.data.map Char.toLower

/-! ## Chat widget send state machine (for the error-path frame claim) -/

structure ChatMsg where
  role : String
  content : String
deriving DecidableEq, Repr

structure ChatState where
  history : List ChatMsg
  inputDisabled : Bool
  sendDisabled : Bool
  sending : Bool
deriving DecidableEq, Repr

/-- Outcome of the POST to /ai/chat: a 2xx reply, a non-OK HTTP status, or
a thrown fetch. -/
inductive FetchOutcome where
  | ok (reply : String)
  | httpError
  | netError
deriving DecidableEq, Repr

/-- The "A pensar..." placeholder pushed before the fetch
(chatbot.js line 179). -/
def thinkingMsg : ChatMsg := ⟨"assistant", "A pensar..."⟩

/-- The message written over the placeholder when the response status is
not OK (chatbot.js lines 234-237). -/
def httpErrorText : String :=
  "Tive um problema a responder agora. Tenta outra vez em alguns segundos."

/-- The message written over the placeholder when the fetch throws
(chatbot.js lines 246-249). -/
def netErrorText : String :=
  "Nao consegui ligar ao servidor do assistente. Verifica se o backend esta ligado."

/-- Models `history[history.length - 1] = m`: replaces the final entry,
leaving an empty history unchanged (in the source the history is never
empty at this point). -/
def replaceLast : List ChatMsg → ChatMsg → List ChatMsg
  | [], _ => []
  | l, m => l.dropLast ++ [m]

/-- Embeds the state effect of one sendMessage call (chatbot.js lines
168-257) on the chat history and the input/send controls.  `nav` is
`some key` when tryNavigate matches page keyword `key` (the widget then
redirects without fetching), `none` otherwise.  In the fetch path the user
message and the "A pensar..." placeholder are appended, the controls are
disabled for the duration of the fetch, the placeholder is overwritten
according to the outcome, and the finally-block re-enables the controls. -/
def sendMessageStep (st : ChatState) (rawText : String) (nav : Option String)
    (outcome : FetchOutcome) : ChatState :=
  let text := jsTrim rawText
  if text = "" ∨ st.sending then st
  else
    let h1 := st.history ++ [⟨"user", text⟩]
    match nav with
    | some key =>
      { st with history := h1 ++ [⟨"assistant", "A redirecionar para " ++ key ++ "..."⟩] }
    | none =>
      let h2 := h1 ++ [thinkingMsg]
      let h3 := match outcome with
        | FetchOutcome.ok reply => replaceLast h2 ⟨"assistant", reply⟩
        | FetchOutcome.httpError => replaceLast h2 ⟨"assistant", httpErrorText⟩
        | FetchOutcome.netError => replaceLast h2 ⟨"assistant", netErrorText⟩
      { history := h3, inputDisabled := false, sendDisabled := false, sending := false }

/-- The error text selected for a failed outcome. -/
def errorTextFor : FetchOutcome → String
  | FetchOutcome.ok reply => reply
  | FetchOutcome.httpError => httpErrorText
  | FetchOutcome.netError => netErrorText

/-! ## Spec-modelled RAG splitter (backend/app/rag/splitter.py is absent) -/

/-- Modelled from the spec: the three splitting strategies of
splitter.py's SplitterStrategy enum (CHARACTER, SENTENCE, RECURSIVE),
which is absent from the source tree. -/
inductive SplitStrategy where
  | character
  | sentence
  | recursive
deriving DecidableEq, Repr

/-- The largest index j < n at which the text has a whitespace character,
used by the character strategy's word-boundary back-off. -/
def lastWsBefore (cs : List Char) : Nat → Option Nat
  | 0 => none
  | n + 1 =>
    match cs.get? n with
    | some c => if c.isWhitespace then some n else lastWsBefore cs n
    | none => lastWsBefore cs n

/-- Modelled from the spec: the cut position for one character-strategy
window — `chunk_size` unless that cut would fall inside a word, in which
case it backs off to just after the nearest preceding whitespace (kept only
when it still makes progress past the overlap). -/
def cutPoint (cs : List Char) (csize cov : Nat) : Nat :=
  let inWord :=
    match cs.get? (csize - 1), cs.get? csize with
    | some a, some b => !a.isWhitespace && !b.isWhitespace
    | _, _ => false
  if inWord then
    match lastWsBefore cs csize with
    | some j => if cov < j + 1 then j + 1 else csize
    | none => csize
  else csize

/-- Modelled from the spec: the character strategy of splitter.py (absent
from the source tree) — slide a window of `chunk_size` characters advancing
by `chunk_size - chunk_overlap`, backing off to the nearest preceding
whitespace when a cut would split a word; consecutive chunks overlap by
exactly `chunk_overlap` characters; empty input yields zero chunks. -/
def splitCharacter (csize cov : Nat) (cs : List Char) : List (List Char) :=
  if h : cs.length ≤ csize then (if cs.isEmpty then [] else [cs])
  else
    let w := cutPoint cs csize cov
    cs.take w :: splitCharacter csize cov (cs.drop (max (w - cov) 1))
termination_by cs.length
decreasing_by
  simp only [List.length_drop]
  omega

/-- Modelled from the spec: sentence boundary detection — split after
terminal punctuation followed by whitespace; the accumulator holds the
current sentence reversed.  Concatenating the returned sentences yields the
original text. -/
def sentenceGo : List Char → List Char → List (List Char)
  | [], acc => if acc.isEmpty then [] else [acc.reverse]
  | c :: rest, acc =>
    if (c == '.' || c == '!' || c == '?') &&
        (match rest.head? with | some d => d.isWhitespace | none => false) then
      (acc.reverse ++ [c]) :: sentenceGo rest []
    else
      sentenceGo rest (c :: acc)

/-- The maximal run of trailing sentences whose total length is at most
`chunk_overlap`, re-included at the start of the next sentence-strategy
chunk. -/
def tailOverlap (cov : Nat) : List (List Char) → List (List Char)
  | [] => []
  | s :: rest =>
    if ((s :: rest).flatten).length ≤ cov then s :: rest else tailOverlap cov rest

/-- Modelled from the spec: greedy packing of consecutive sentences into
chunks not exceeding `chunk_size`, overlapping by re-including the trailing
`chunk_overlap` characters' worth of sentences in the next chunk.  The
second argument is the current chunk as a list of sentence segments. -/
def packGo (csize cov : Nat) : List (List Char) → List (List Char) → List (List Char)
  | [], acc => if acc.isEmpty then [] else [acc.flatten]
  | s :: rest, acc =>
    if acc.isEmpty then packGo csize cov rest [s]
    else if (acc.flatten ++ s).length ≤ csize then packGo csize cov rest (acc ++ [s])
    else acc.flatten :: packGo csize cov rest (tailOverlap cov acc ++ [s])

/-- Modelled from the spec: the sentence strategy — split on sentence
boundaries, then greedily pack sentences into chunks. -/
def splitSentenceStrategy (csize cov : Nat) (cs : List Char) : List (List Char) :=
  packGo csize cov (sentenceGo cs []) []

/-- Modelled from the spec: the recursive strategy — sentence splitting
first, any resulting unit still longer than `chunk_size` is split with the
character strategy. -/
def splitRecursiveStrategy (csize cov : Nat) (cs : List Char) : List (List Char) :=
  (splitSentenceStrategy csize cov cs).flatMap
    (fun u => if u.length ≤ csize then [u] else splitCharacter csize cov u)

/-- Modelled from the spec: TextSplitter.split(text, strategy) of the
absent splitter.py, dispatching on the configured strategy. -/
def TextSplitter.split (strategy : SplitStrategy) (csize cov : Nat)
    (cs : List Char) : List (List Char) :=
  match strategy with
  | SplitStrategy.character => splitCharacter csize cov cs
  | SplitStrategy.sentence => splitSentenceStrategy csize cov cs
  | SplitStrategy.recursive => splitRecursiveStrategy csize cov cs

/-- The concatenation of a chunk list with each chunk's leading
`chunk_overlap` characters removed — the tail part of the reconstruction
stated in the spec's testable properties. -/
def dropOverlapJoin (cov : Nat) (l : List (List Char)) : List Char :=
  (l.map (List.drop cov)).flatten

/-- Concatenation of the chunks with each chunk's leading `chunk_overlap`
characters removed, after the first. -/
def joinOverlap (cov : Nat) : List (List Char) → List Char
  | [] => []
  | c :: rest => c ++ dropOverlapJoin cov rest

/-! ## Spec-modelled error taxonomy and pipeline construction -/

/-- Modelled from the spec: the error taxonomy of section 7. -/
inductive RagError where
  | notFoundError
  | unsupportedFormatError
  | configurationError
  | validationError
  | embeddingBackendError
  | dimensionMismatchError
deriving DecidableEq, Repr

/-- Modelled from the spec: PipelineConfig — immutable configuration of a
Pipeline. -/
structure PipelineConfig where
  chunk_size : Nat
  chunk_overlap : Nat
  top_k : Int
  embedding_dim : Nat
  strategy : SplitStrategy
deriving DecidableEq, Repr

/-- Modelled from the spec: a constructed RAGPipeline owning its
configuration. -/
structure RAGPipeline where
  config : PipelineConfig
deriving DecidableEq, Repr

/-- Modelled from the spec: RAGPipeline construction (pipeline.py is
absent) — validates the configuration once at construction and fails fast
with `ConfigurationError` when `chunk_overlap >= chunk_size`; the single
configured `embedding_dim` is shared by embedder and store, so dimension
compatibility holds by construction. -/
def RAGPipeline.construct (cfg : PipelineConfig) : Except RagError RAGPipeline :=
  if cfg.chunk_size ≤ cfg.chunk_overlap then Except.error RagError.configurationError
  else Except.ok ⟨cfg⟩

/-- Modelled from the spec: split at split time performs no configuration
validation (the spec rejects bad overlap at Pipeline construction time,
not at split time), so it always returns chunks. -/
def RAGPipeline.runSplit (p : RAGPipeline) (cs : List Char) :
    Except RagError (List (List Char)) :=
  Except.ok (TextSplitter.split p.config.strategy p.config.chunk_size p.config.chunk_overlap cs)

/-! ## Spec-modelled demo embedder (backend/app/rag/embedder.py is absent) -/

/-- Modelled from the spec: the seeded hash of the text from which the
demo (DummyEmbedder) backend derives its vector. -/
def hashText (cs : List Char) : Nat :=
  cs.foldl (fun h c => (h * 31 + c.toNat) % 2 ^ 32) 5381

/-- One step of the seeded generator expanding the text hash into vector
components. -/
def lcgNext (x : Nat) : Nat :=
  (1103515245 * x + 12345) % 2 ^ 31

/-- Vector components generated from a seed: `n` values in [-1, 1]. -/
def vecFrom : Nat → Nat → List ℚ
  | 0, _ => []
  | n + 1, st =>
    let st' := lcgNext st
    (((st' % 2001 : Nat) : ℚ) - 1000) / 1000 :: vecFrom n st'

/-- Modelled from the spec: DummyEmbedder.embed of the absent embedder.py —
derives a vector of the configured dimension from a seeded hash of the
text; identical text always yields identical vectors, and the empty string
is legal input yielding a well-defined vector. -/
def DummyEmbedder.embed (dim : Nat) (cs : List Char) : List ℚ :=
  vecFrom dim (hashText cs)

/-! ## Spec-modelled in-memory vector store (backend/app/rag/vectorstore.py
is absent).  Vectors are lists of rationals; a cosine score is represented
exactly as a pair (d, s) standing for d / sqrt s, compared by a decidable
rational test and interpreted into ℝ for the analytic claims. -/

/-- Dot product of two vectors. -/
def dotQ (a b : List ℚ) : ℚ :=
  (List.zipWith (fun x y => x * y) a b).sum

/-- Squared Euclidean norm. -/
def normSq (a : List ℚ) : ℚ :=
  dotQ a a

/-- Positivity guard for the second component of a score representation:
identity on the positive values that actually arise. -/
def fixPos (s : ℚ) : ℚ :=
  if s ≤ 0 then 1 else s

/-- Modelled from the spec: the exact score representation of cosine
similarity, `score = dot(a,b) / (|a| * |b|)`, as the pair
(dot q v, |q|^2 * |v|^2); the score is 0 when either vector has zero norm
(never divide by zero), represented as (0, 1). -/
def scoreQ (q v : List ℚ) : ℚ × ℚ :=
  if normSq q = 0 ∨ normSq v = 0 then (0, 1)
  else (dotQ q v, normSq q * normSq v)

/-- Interpretation of a score representation as the real number
d / sqrt s. -/
noncomputable def cosToReal (x : ℚ × ℚ) : ℝ :=
  (x.1 : ℝ) / Real.sqrt ((fixPos x.2 : ℚ) : ℝ)

/-- The real cosine similarity score used by the vector store. -/
noncomputable def cosineScore (q v : List ℚ) : ℝ :=
  cosToReal (scoreQ q v)

/-- The Euclidean norm |a| of a vector. -/
noncomputable def vecNorm (a : List ℚ) : ℝ :=
  Real.sqrt ((normSq a : ℝ))

/-- Decidable comparison of two score representations, by sign analysis
and cross-multiplied squares; equivalent to comparing their real
interpretations. -/
def cosLe (x y : ℚ × ℚ) : Bool :=
  if x.1 ≤ 0 then
    (0 ≤ y.1) || (y.1 ^ 2 * fixPos x.2 ≤ x.1 ^ 2 * fixPos y.2)
  else
    (0 < y.1) && (x.1 ^ 2 * fixPos y.2 ≤ y.1 ^ 2 * fixPos x.2)

/-- Modelled from the spec: an IndexEntry of the in-memory store — an id
with its vector (the chunk payload is irrelevant to the verified claims).
The store is the list of entries in insertion (add) order. -/
structure IndexEntry where
  id : String
  vec : List ℚ
deriving DecidableEq, Repr

/-- An entry decorated for ranking: its insertion position, its id, and
its score representation against the query. -/
structure Scored where
  idx : Nat
  sid : String
  cos : ℚ × ℚ
deriving DecidableEq, Repr

/-- The ranking relation of search: strictly higher score first, ties by
insertion order (earlier-added entries rank first). -/
def rankB (x y : Scored) : Bool :=
  if cosLe x.cos y.cos then (cosLe y.cos x.cos && decide (x.idx ≤ y.idx)) else true

/-- The ranking relation as a decidable proposition. -/
abbrev rankRel (x y : Scored) : Prop :=
  rankB x y = true

/-- All entries of the store scored against the query and sorted by the
ranking relation. -/
def rankedAll (store : List IndexEntry) (q : List ℚ) : List Scored :=
  List.insertionSort rankRel
    (store.enum.map (fun p => ⟨p.1, p.2.id, scoreQ q p.2.vec⟩))

/-- Modelled from the spec: InMemoryVectorStore.search — `k <= 0` is a
validation error; otherwise the top `k` entries ordered by descending
cosine score, ties broken by insertion order. -/
def searchStore (store : List IndexEntry) (q : List ℚ) (k : Int) :
    Except RagError (List (String × (ℚ × ℚ))) :=
  if k ≤ 0 then Except.error RagError.validationError
  else Except.ok (((rankedAll store q).take k.toNat).map (fun x => (x.sid, x.cos)))

/-- Modelled from the spec: InMemoryVectorStore.delete — removes the entry
with the given id, returning true exactly when an entry was removed. -/
def deleteStore (store : List IndexEntry) (did : String) : Bool × List IndexEntry :=
  if store.any (fun e => e.id == did) then
    (true, store.filter (fun e => e.id != did))
  else (false, store)

/-! ## Theorems -/

theorem vecFrom_length (n : Nat) : ∀ st, (vecFrom n st).length = n := by
  induction n with
  | zero => intro st; rfl
  | succ n ih => intro st; simpa [vecFrom] using ih (lcgNext st)

theorem replaceLast_concat (l : List ChatMsg) (a m : ChatMsg) :
    replaceLast (l ++ [a]) m = l ++ [m] := by
  cases l with
  | nil => rfl
  | cons x xs =>
    have h : replaceLast ((x :: xs) ++ [a]) m = ((x :: xs) ++ [a]).dropLast ++ [m] := rfl
    rw [h, List.dropLast_concat]

theorem squeezeGo_replicate_a (n : Nat) :
    squeezeGo (List.replicate n 'a') false = List.replicate n 'a' := by
  have hws : 'a'.isWhitespace = false := by decide
  induction n with
  | zero => rfl
  | succ n ih => simp [List.replicate_succ, squeezeGo, hws, ih]

theorem collapseWs_replicate_a (n : Nat) :
    collapseWs (List.replicate n 'a') = List.replicate n 'a' := by
  have hws : 'a'.isWhitespace = false := by decide
  cases n with
  | zero => rfl
  | succ n =>
    unfold collapseWs
    rw [List.replicate_succ, List.dropWhile_cons]
    simp only [hws, Bool.false_eq_true, if_false]
    exact squeezeGo_replicate_a (n + 1)

/-- C9: for every page state, collectPageContext returns a page_text of at
most 3504 characters — text whose collapsed length exceeds 3500 is cut to
3500 characters and suffixed with " ..." — and a thrown page read yields
empty page_text and page_title instead of propagating. -/
theorem collectPageContext_spec (st : Option (List Char × List Char)) :
    (collectPageContext st).1.length ≤ 3504 ∧
    collectPageContext none = ([], []) ∧
    (∀ raw title, 3500 < (collapseWs raw).length →
      collectPageContext (some (raw, title)) =
        ((collapseWs raw).take 3500 ++ (" ...".data), title)) := by
  refine ⟨?_, rfl, ?_⟩
  · cases st with
    | none => simp [collectPageContext]
    | some p =>
      obtain ⟨raw, title⟩ := p
      show (if 3500 < (collapseWs raw).length then
          (collapseWs raw).take 3500 ++ (" ...".data) else collapseWs raw).length ≤ 3504
      by_cases h : 3500 < (collapseWs raw).length
      · rw [if_pos h]
        have h4 : (" ...".data).length = 4 := by decide
        simp [List.length_take, h4]
      · rw [if_neg h]
        omega
  · intro raw title h
    show (if 3500 < (collapseWs raw).length then
        (collapseWs raw).take 3500 ++ (" ...".data) else collapseWs raw, title) = _
    rw [if_pos h]

/-- Witness for C9 at a concrete 3501-character page text. -/
theorem collectPageContext_spec_witness :
    3500 < (collapseWs (List.replicate 3501 'a')).length ∧
    collectPageContext (some (List.replicate 3501 'a', ['T'])) =
      ((collapseWs (List.replicate 3501 'a')).take 3500 ++ (" ...".data), ['T']) := by
  have hlen : 3500 < (collapseWs (List.replicate 3501 'a')).length := by
    rw [collapseWs_replicate_a, List.length_replicate]
    omega
  exact ⟨hlen, (collectPageContext_spec (some (List.replicate 3501 'a', ['T']))).2.2 _ _ hlen⟩

/-- C10: when the POST to /ai/chat returns a non-OK status or throws,
sendMessage replaces only the final history entry (the "A pensar..."
placeholder) with the error message — every earlier entry, including the
user's just-sent message, is unchanged — and the input field and send
button are re-enabled in every outcome. -/
theorem sendMessage_error_frame (st : ChatState) (rawText : String)
    (outcome : FetchOutcome) (hsend : st.sending = false)
    (htext : jsTrim rawText ≠ "")
    (herr : outcome = FetchOutcome.httpError ∨ outcome = FetchOutcome.netError) :
    (sendMessageStep st rawText none outcome).history =
      st.history ++ [⟨"user", jsTrim rawText⟩, ⟨"assistant", errorTextFor outcome⟩] ∧
    (sendMessageStep st rawText none outcome).history.dropLast =
      st.history ++ [⟨"user", jsTrim rawText⟩] ∧
    (∀ o : FetchOutcome, (sendMessageStep st rawText none o).inputDisabled = false ∧
      (sendMessageStep st rawText none o).sendDisabled = false) := by
  have hcond : ¬(jsTrim rawText = "" ∨ st.sending = true) := by
    rw [hsend]; simp [htext]
  have hstep : ∀ o : FetchOutcome, sendMessageStep st rawText none o =
      { history := replaceLast ((st.history ++ [⟨"user", jsTrim rawText⟩]) ++ [thinkingMsg])
          ⟨"assistant", errorTextFor o⟩,
        inputDisabled := false, sendDisabled := false, sending := false } := by
    intro o
    unfold sendMessageStep
    rw [if_neg hcond]
    cases o <;> rfl
  have hrepl : ∀ o : FetchOutcome,
      (sendMessageStep st rawText none o).history =
        st.history ++ [⟨"user", jsTrim rawText⟩, ⟨"assistant", errorTextFor o⟩] := by
    intro o
    rw [hstep o]
    show replaceLast ((st.history ++ [⟨"user", jsTrim rawText⟩]) ++ [thinkingMsg]) _ = _
    rw [replaceLast_concat]
    simp
  refine ⟨hrepl outcome, ?_, ?_⟩
  · rw [hrepl outcome]
    rw [show st.history ++ [(⟨"user", jsTrim rawText⟩ : ChatMsg),
        ⟨"assistant", errorTextFor outcome⟩] =
      (st.history ++ [⟨"user", jsTrim rawText⟩]) ++ [⟨"assistant", errorTextFor outcome⟩] by simp,
      List.dropLast_concat]
  · intro o
    rw [hstep o]
    exact ⟨rfl, rfl⟩

/-- Witness for C10 at a concrete state, message, and failed outcome. -/
theorem sendMessage_error_frame_witness :
    (⟨[], false, false, false⟩ : ChatState).sending = false ∧
    jsTrim "ola" ≠ "" ∧
    (sendMessageStep ⟨[], false, false, false⟩ "ola" none FetchOutcome.httpError).history =
      [⟨"user", jsTrim "ola"⟩, ⟨"assistant", httpErrorText⟩] := by
  refine ⟨rfl, by decide, ?_⟩
  have h := (sendMessage_error_frame ⟨[], false, false, false⟩ "ola" FetchOutcome.httpError
    rfl (by decide) (Or.inl rfl)).1
  simpa using h

/-- C3: for every configuration with chunk_overlap >= chunk_size,
constructing the pipeline yields ConfigurationError at construction time;
for chunk_overlap < chunk_size construction succeeds and split at split
time never returns an error on any input. -/
theorem pipeline_construct_validation (cfg : PipelineConfig) :
    (cfg.chunk_size ≤ cfg.chunk_overlap →
      RAGPipeline.construct cfg = Except.error RagError.configurationError) ∧
    (cfg.chunk_overlap < cfg.chunk_size →
      RAGPipeline.construct cfg = Except.ok ⟨cfg⟩ ∧
      ∀ cs, RAGPipeline.runSplit ⟨cfg⟩ cs =
        Except.ok (TextSplitter.split cfg.strategy cfg.chunk_size cfg.chunk_overlap cs)) := by
  constructor
  · intro h
    unfold RAGPipeline.construct
    rw [if_pos h]
  · intro h
    refine ⟨?_, fun cs => rfl⟩
    unfold RAGPipeline.construct
    rw [if_neg (by omega)]

/-- Witness for C3: an overlap >= size configuration is rejected, an
overlap < size configuration constructs and splits without error. -/
theorem pipeline_construct_validation_witness :
    RAGPipeline.construct ⟨100, 200, 5, 384, SplitStrategy.character⟩ =
      Except.error RagError.configurationError ∧
    RAGPipeline.construct ⟨1000, 200, 5, 384, SplitStrategy.recursive⟩ =
      Except.ok ⟨⟨1000, 200, 5, 384, SplitStrategy.recursive⟩⟩ :=
  ⟨(pipeline_construct_validation _).1 (by decide),
   ((pipeline_construct_validation _).2 (by decide)).1⟩

/-- C8: the demo (hash-based) embedder is deterministic — embed(x) yields
identical vectors on repeated evaluation — and for every input, the empty
string included, it returns a well-defined vector of the configured
dimension rather than raising. -/
theorem dummyEmbedder_deterministic (dim : Nat) (cs : List Char) :
    DummyEmbedder.embed dim cs = DummyEmbedder.embed dim cs ∧
    (DummyEmbedder.embed dim cs).length = dim ∧
    (DummyEmbedder.embed dim []).length = dim :=
  ⟨rfl, vecFrom_length dim _, vecFrom_length dim _⟩

set_option maxRecDepth 40000 in
/-- C1: for every user message the widget does not recognise as a
navigation request, sendMessage issues exactly one POST and its path is
/ai/chat; no request call site anywhere in the source targets the RAG
boundary endpoints /ai/chat-rag, /ai/index-documents or /ai/retrieve; and
among all declared function names in the source the only one containing
any fragment of a RAG operation name (case-insensitively) is
initVideoEmbeds, which (unnamed parts 000 line 404 and 008 line 398) wires
clickable video thumbnails to an iframe modal — DOM video embedding, not
an implementation of text-vector embedding, splitting, vector search, or
retrieval. -/
theorem sendMessage_single_post (rawText : String) (hasToken : Bool)
    (activeSector : String) (htext : jsTrim rawText ≠ "")
    (hnav : tryNavigate (jsTrim rawText) = false) :
    ((sendMessageRequests rawText false hasToken activeSector).filter
        (fun r => r.method == HttpMethod.post)) = [⟨HttpMethod.post, "/ai/chat"⟩] ∧
    (∀ r ∈ sendMessageRequests rawText false hasToken activeSector,
        r.method = HttpMethod.post → r.path = "/ai/chat") ∧
    (∀ p ∈ sourceRequestPaths, p ∉ ragBoundaryPaths) ∧
    sourceFunctionNames.filter
        (fun f => ragOperationFragments.any (fun g => includesSub (lowerName f) g.data)) =
      ["initVideoEmbeds"] := by
  have hreq : sendMessageRequests rawText false hasToken activeSector =
      (if hasToken then
        [⟨HttpMethod.get,
          "/kpi/context" ++
            (if activeSector = "" then "" else "?sector=" ++ activeSector)⟩]
       else []) ++ [⟨HttpMethod.post, "/ai/chat"⟩] := by
    unfold sendMessageRequests
    rw [if_neg (by simp [htext]), if_neg (by simp [hnav])]
  refine ⟨?_, ?_, by decide, by decide⟩
  · rw [hreq]
    cases hasToken <;> simp
  · intro r hr hpost
    rw [hreq] at hr
    cases hasToken <;> simp at hr
    · rw [hr]
    · rcases hr with hr | hr
      · rw [hr] at hpost; simp at hpost
      · rw [hr]

/-- Witness for C1 at a concrete non-navigation message. -/
theorem sendMessage_single_post_witness :
    jsTrim "ola" ≠ "" ∧ tryNavigate (jsTrim "ola") = false ∧
    ((sendMessageRequests "ola" false true "agri").filter
        (fun r => r.method == HttpMethod.post)) = [⟨HttpMethod.post, "/ai/chat"⟩] :=
  ⟨by decide, by decide,
   (sendMessage_single_post "ola" true "agri" (by decide) (by decide)).1⟩


theorem lastWsBefore_lt (cs : List Char) :
    ∀ n j, lastWsBefore cs n = some j → j < n := by
  intro n
  induction n with
  | zero => intro j h; simp [lastWsBefore] at h
  | succ n ih =>
    intro j h
    unfold lastWsBefore at h
    cases hg : cs.get? n with
    | none =>
      rw [hg] at h
      simp only at h
      exact Nat.lt_succ_of_lt (ih j h)
    | some c =>
      rw [hg] at h
      simp only at h
      by_cases hw : c.isWhitespace
      · rw [if_pos hw] at h
        injection h with h
        omega
      · rw [if_neg hw] at h
        exact Nat.lt_succ_of_lt (ih j h)

theorem cutPoint_le (cs : List Char) (csize cov : Nat) :
    cutPoint cs csize cov ≤ csize := by
  unfold cutPoint
  simp only []
  split
  · cases hg : lastWsBefore cs csize with
    | none => show csize ≤ csize; exact Nat.le_refl csize
    | some j =>
      have hj := lastWsBefore_lt cs csize j hg
      show (if cov < j + 1 then j + 1 else csize) ≤ csize
      by_cases hc : cov < j + 1
      · rw [if_pos hc]; omega
      · rw [if_neg hc]
  · exact Nat.le_refl csize

theorem cutPoint_gt (cs : List Char) (csize cov : Nat) (hcov : cov < csize) :
    cov < cutPoint cs csize cov := by
  unfold cutPoint
  simp only []
  split
  · cases hg : lastWsBefore cs csize with
    | none => show cov < csize; exact hcov
    | some j =>
      show cov < (if cov < j + 1 then j + 1 else csize)
      by_cases hc : cov < j + 1
      · rw [if_pos hc]; exact hc
      · rw [if_neg hc]; exact hcov
  · exact hcov
theorem splitCharacter_small {csize cov : Nat} {cs : List Char}
    (h : cs.length ≤ csize) :
    splitCharacter csize cov cs = if cs.isEmpty then [] else [cs] := by
  rw [splitCharacter, dif_pos h]

theorem splitCharacter_large {csize cov : Nat} {cs : List Char}
    (h : ¬ cs.length ≤ csize) :
    splitCharacter csize cov cs = cs.take (cutPoint cs csize cov) ::
      splitCharacter csize cov (cs.drop (max (cutPoint cs csize cov - cov) 1)) := by
  rw [splitCharacter, dif_neg h]

theorem splitCharacter_chunk_le (csize cov : Nat) :
    ∀ (n : Nat) (cs : List Char), cs.length ≤ n →
      ∀ c ∈ splitCharacter csize cov cs, c.length ≤ csize := by
  intro n
  induction n with
  | zero =>
    intro cs hlen c hc
    have : cs = [] := List.length_eq_zero.mp (Nat.le_zero.mp hlen)
    subst this
    rw [splitCharacter_small (by simp)] at hc
    simp at hc
  | succ n ih =>
    intro cs hlen c hc
    by_cases h : cs.length ≤ csize
    · rw [splitCharacter_small h] at hc
      by_cases he : cs.isEmpty
      · rw [if_pos he] at hc; simp at hc
      · rw [if_neg he] at hc
        rw [List.mem_singleton.mp hc]
        exact h
    · rw [splitCharacter_large h] at hc
      rcases List.mem_cons.mp hc with rfl | hc
      · calc (cs.take (cutPoint cs csize cov)).length
            ≤ cutPoint cs csize cov := by simp [List.length_take]
          _ ≤ csize := cutPoint_le cs csize cov
      · refine ih _ ?_ c hc
        have hpos : 0 < cs.length := by omega
        simp only [List.length_drop]
        omega

theorem dropOverlapJoin_splitCharacter (csize cov : Nat) (hcov : cov < csize) :
    ∀ (n : Nat) (cs : List Char), cs.length ≤ n →
      dropOverlapJoin cov (splitCharacter csize cov cs) = cs.drop cov := by
  intro n
  induction n with
  | zero =>
    intro cs hlen
    have : cs = [] := List.length_eq_zero.mp (Nat.le_zero.mp hlen)
    subst this
    rw [splitCharacter_small (by simp)]
    simp [dropOverlapJoin]
  | succ n ih =>
    intro cs hlen
    by_cases h : cs.length ≤ csize
    · rw [splitCharacter_small h]
      by_cases he : cs.isEmpty
      · rw [if_pos he]
        rw [List.isEmpty_iff.mp he]
        simp [dropOverlapJoin]
      · rw [if_neg he]
        simp [dropOverlapJoin]
    · rw [splitCharacter_large h]
      set w := cutPoint cs csize cov with hw
      have hwgt : cov < w := cutPoint_gt cs csize cov hcov
      have hmax : max (w - cov) 1 = w - cov := by omega
      rw [hmax]
      have hrec : dropOverlapJoin cov (splitCharacter csize cov (cs.drop (w - cov))) =
          (cs.drop (w - cov)).drop cov := by
        refine ih _ ?_
        simp only [List.length_drop]
        omega
      show dropOverlapJoin cov (cs.take w :: splitCharacter csize cov (cs.drop (w - cov))) = _
      have hcons : dropOverlapJoin cov (cs.take w :: splitCharacter csize cov (cs.drop (w - cov))) =
          (cs.take w).drop cov ++ dropOverlapJoin cov (splitCharacter csize cov (cs.drop (w - cov))) := by
        simp [dropOverlapJoin]
      rw [hcons, hrec]
      rw [List.drop_take, List.drop_drop]
      have hsum : w - cov + cov = w := by omega
      rw [hsum]
      have hdw : cs.drop w = (cs.drop cov).drop (w - cov) := by
        rw [List.drop_drop]
        rw [show cov + (w - cov) = w by omega]
      rw [hdw, List.take_append_drop]

theorem joinOverlap_splitCharacter (csize cov : Nat) (hcov : cov < csize)
    (cs : List Char) (hne : cs ≠ []) :
    joinOverlap cov (splitCharacter csize cov cs) = cs := by
  by_cases h : cs.length ≤ csize
  · rw [splitCharacter_small h, if_neg (by simpa using hne)]
    show cs ++ dropOverlapJoin cov [] = cs
    simp [dropOverlapJoin]
  · rw [splitCharacter_large h]
    set w := cutPoint cs csize cov with hw
    have hwgt : cov < w := cutPoint_gt cs csize cov hcov
    have hmax : max (w - cov) 1 = w - cov := by omega
    rw [hmax]
    show cs.take w ++ dropOverlapJoin cov (splitCharacter csize cov (cs.drop (w - cov))) = cs
    rw [dropOverlapJoin_splitCharacter csize cov hcov (cs.drop (w - cov)).length _ (Nat.le_refl _)]
    rw [List.drop_drop]
    rw [show w - cov + cov = w by omega]
    exact List.take_append_drop w cs

theorem splitCharacter_ne_nil (csize cov : Nat) (cs : List Char) (hne : cs ≠ []) :
    splitCharacter csize cov cs ≠ [] := by
  by_cases h : cs.length ≤ csize
  · rw [splitCharacter_small h, if_neg (by simpa using hne)]
    simp
  · rw [splitCharacter_large h]
    simp

theorem sentenceGo_ne_nil :
    ∀ (cs acc : List Char), cs ≠ [] ∨ acc ≠ [] → sentenceGo cs acc ≠ [] := by
  intro cs
  induction cs with
  | nil =>
    intro acc h
    rcases h with h | h
    · exact absurd rfl h
    · unfold sentenceGo
      rw [if_neg (by simpa using h)]
      simp
  | cons c rest ih =>
    intro acc h
    unfold sentenceGo
    split
    · simp
    · exact ih (c :: acc) (Or.inr (by simp))

theorem packGo_ne_nil (csize cov : Nat) :
    ∀ (sents acc : List (List Char)), sents ≠ [] ∨ acc ≠ [] →
      packGo csize cov sents acc ≠ [] := by
  intro sents
  induction sents with
  | nil =>
    intro acc h
    rcases h with h | h
    · exact absurd rfl h
    · unfold packGo
      rw [if_neg (by simpa using h)]
      simp
  | cons s rest ih =>
    intro acc h
    unfold packGo
    split
    · exact ih [s] (Or.inr (by simp))
    · split
      · exact ih (acc ++ [s]) (Or.inr (by simp))
      · simp

theorem splitSentence_ne_nil (csize cov : Nat) (cs : List Char) (h : cs ≠ []) :
    splitSentenceStrategy csize cov cs ≠ [] :=
  packGo_ne_nil csize cov (sentenceGo cs []) []
    (Or.inl (sentenceGo_ne_nil cs [] (Or.inl h)))

theorem splitRecursive_chunk_le (csize cov : Nat) (cs : List Char) :
    ∀ c ∈ splitRecursiveStrategy csize cov cs, c.length ≤ csize := by
  intro c hc
  unfold splitRecursiveStrategy at hc
  rcases List.mem_flatMap.mp hc with ⟨u, hu, hcu⟩
  by_cases hle : u.length ≤ csize
  · rw [if_pos hle] at hcu
    rw [List.mem_singleton.mp hcu]
    exact hle
  · rw [if_neg hle] at hcu
    exact splitCharacter_chunk_le csize cov u.length u (Nat.le_refl _) c hcu

theorem splitRecursive_ne_nil (csize cov : Nat) (cs : List Char) (h : cs ≠ []) :
    splitRecursiveStrategy csize cov cs ≠ [] := by
  unfold splitRecursiveStrategy
  cases hsp : splitSentenceStrategy csize cov cs with
  | nil => exact absurd hsp (splitSentence_ne_nil csize cov cs h)
  | cons u rest =>
    intro hnil
    rw [List.flatMap_cons] at hnil
    rcases List.append_eq_nil.mp hnil with ⟨h1, _⟩
    by_cases hle : u.length ≤ csize
    · rw [if_pos hle] at h1
      simp at h1
    · rw [if_neg hle] at h1
      have hu : u ≠ [] := by
        intro he
        rw [he] at hle
        simp at hle
      exact splitCharacter_ne_nil csize cov u hu h1

/-- C2 counterexample: the claim fails as stated for two of the three
strategies.  Sentence strategy: the text "aaaa" (one sentence with no
boundary) at chunk_size 2, chunk_overlap 0 yields a single chunk of
length 4 > chunk_size.  Recursive strategy: on "ab. cd. ef." at
chunk_size 8, chunk_overlap 3 the two chunks overlap by zero sentences,
so removing the second chunk's leading 3 characters does not reconstruct
the original text. -/
theorem split_strategy_counterexample :
    (¬ (∀ c ∈ TextSplitter.split SplitStrategy.sentence 2 0 ("aaaa".data),
        c.length ≤ 2)) ∧
    joinOverlap 3 (TextSplitter.split SplitStrategy.recursive 8 3 ("ab. cd. ef.".data)) ≠
      ("ab. cd. ef.".data) := by
  exact ⟨by decide, by decide⟩

/-- C2 (amended): for all non-empty input text with chunk_overlap <
chunk_size: with the character strategy, split returns at least one chunk,
every chunk has length at most chunk_size, and the concatenation of the
chunks with each chunk's leading chunk_overlap characters removed (after
the first) reconstructs the original text; with the recursive strategy,
split returns at least one chunk and every chunk has length at most
chunk_size, but the fixed-overlap reconstruction can fail at sentence-unit
boundaries (which overlap by whole sentences, not by exactly chunk_overlap
characters); with the sentence strategy additionally the chunk-size bound
can fail when a single sentence exceeds chunk_size. -/
theorem split_character_reconstruction (csize cov : Nat) (cs : List Char)
    (hcov : cov < csize) (hne : cs ≠ []) :
    (TextSplitter.split SplitStrategy.character csize cov cs ≠ [] ∧
     (∀ c ∈ TextSplitter.split SplitStrategy.character csize cov cs,
       c.length ≤ csize) ∧
     joinOverlap cov (TextSplitter.split SplitStrategy.character csize cov cs) = cs) ∧
    (TextSplitter.split SplitStrategy.recursive csize cov cs ≠ [] ∧
     ∀ c ∈ TextSplitter.split SplitStrategy.recursive csize cov cs,
       c.length ≤ csize) := by
  refine ⟨⟨splitCharacter_ne_nil csize cov cs hne, ?_, ?_⟩,
    splitRecursive_ne_nil csize cov cs hne, splitRecursive_chunk_le csize cov cs⟩
  · exact splitCharacter_chunk_le csize cov cs.length cs (Nat.le_refl _)
  · exact joinOverlap_splitCharacter csize cov hcov cs hne

/-- Witness for the amended C2 at a concrete text and configuration:
character-strategy reconstruction and recursive-strategy nonemptiness. -/
theorem split_character_reconstruction_witness :
    (1 : Nat) < 5 ∧ ("hello world".data ≠ []) ∧
    joinOverlap 1 (TextSplitter.split SplitStrategy.character 5 1 ("hello world".data)) =
      "hello world".data ∧
    TextSplitter.split SplitStrategy.recursive 5 1 ("hello world".data) ≠ [] :=
  ⟨by decide, by decide,
   (split_character_reconstruction 5 1 ("hello world".data) (by decide) (by decide)).1.2.2,
   (split_character_reconstruction 5 1 ("hello world".data) (by decide) (by decide)).2.1⟩

theorem dotQ_nil_left (b : List ℚ) : dotQ [] b = 0 := by
  simp [dotQ]

theorem dotQ_cons (x y : ℚ) (a b : List ℚ) :
    dotQ (x :: a) (y :: b) = x * y + dotQ a b := by
  simp [dotQ]

theorem dotQ_comm (a : List ℚ) : ∀ b, dotQ a b = dotQ b a := by
  induction a with
  | nil => intro b; cases b <;> simp [dotQ]
  | cons x a ih =>
    intro b
    cases b with
    | nil => simp [dotQ]
    | cons y b => rw [dotQ_cons, dotQ_cons, ih, mul_comm]

theorem normSq_nonneg (a : List ℚ) : 0 ≤ normSq a := by
  unfold normSq
  induction a with
  | nil => simp [dotQ]
  | cons x a ih =>
    rw [dotQ_cons]
    have := mul_self_nonneg x
    linarith

theorem fixPos_pos (s : ℚ) : 0 < fixPos s := by
  unfold fixPos
  split
  · norm_num
  · linarith [lt_of_not_ge (by assumption : ¬ s ≤ 0)]

theorem fixPos_of_pos {s : ℚ} (h : 0 < s) : fixPos s = s := by
  unfold fixPos
  rw [if_neg (not_le.mpr h)]

theorem scoreQ_snd_pos (q v : List ℚ) : 0 < (scoreQ q v).2 := by
  unfold scoreQ
  split
  · norm_num
  · rename_i h
    push_neg at h
    exact mul_pos (lt_of_le_of_ne (normSq_nonneg q) (Ne.symm h.1))
      (lt_of_le_of_ne (normSq_nonneg v) (Ne.symm h.2))

theorem vecNorm_eq_zero_iff (a : List ℚ) : vecNorm a = 0 ↔ normSq a = 0 := by
  unfold vecNorm
  rw [Real.sqrt_eq_zero (by exact_mod_cast normSq_nonneg a)]
  exact_mod_cast Iff.rfl

/-- C5: for every pair of vectors, the scoring function equals
dot(a,b) / (|a| * |b|) whenever both norms are non-zero, and equals 0
whenever either vector has zero norm; the denominator is non-zero in the
former case, so no search ever divides by zero. -/
theorem cosine_never_divides_by_zero (a b : List ℚ) :
    ((vecNorm a = 0 ∨ vecNorm b = 0) → cosineScore a b = 0) ∧
    (vecNorm a ≠ 0 → vecNorm b ≠ 0 →
      cosineScore a b = ((dotQ a b : ℚ) : ℝ) / (vecNorm a * vecNorm b) ∧
      vecNorm a * vecNorm b ≠ 0) := by
  constructor
  · intro h
    have hg : normSq a = 0 ∨ normSq b = 0 := by
      rcases h with h | h
      · exact Or.inl ((vecNorm_eq_zero_iff a).mp h)
      · exact Or.inr ((vecNorm_eq_zero_iff b).mp h)
    unfold cosineScore scoreQ
    rw [if_pos hg]
    unfold cosToReal
    simp
  · intro ha hb
    have hqa : normSq a ≠ 0 := fun h => ha ((vecNorm_eq_zero_iff a).mpr h)
    have hqb : normSq b ≠ 0 := fun h => hb ((vecNorm_eq_zero_iff b).mpr h)
    have hpa : 0 < normSq a := lt_of_le_of_ne (normSq_nonneg a) (Ne.symm hqa)
    have hpb : 0 < normSq b := lt_of_le_of_ne (normSq_nonneg b) (Ne.symm hqb)
    have hsa : (0:ℝ) < ((normSq a : ℚ) : ℝ) := by exact_mod_cast hpa
    have hsb : (0:ℝ) < ((normSq b : ℚ) : ℝ) := by exact_mod_cast hpb
    have hna : 0 < vecNorm a := Real.sqrt_pos.mpr hsa
    have hnb : 0 < vecNorm b := Real.sqrt_pos.mpr hsb
    constructor
    · unfold cosineScore scoreQ
      rw [if_neg (by push_neg; exact ⟨hqa, hqb⟩)]
      unfold cosToReal vecNorm
      rw [fixPos_of_pos (mul_pos hpa hpb)]
      have hcast : (((normSq a * normSq b : ℚ)) : ℝ) =
          ((normSq a : ℚ) : ℝ) * ((normSq b : ℚ) : ℝ) := by push_cast; ring
      rw [hcast, Real.sqrt_mul hsa.le]
    · exact ne_of_gt (mul_pos hna hnb)

/-- C6: for every vector with non-zero norm the cosine score of the
vector with itself equals 1.0 within tolerance 1e-6, and the score is
symmetric. -/
theorem cosine_self_one_and_symm (v a b : List ℚ) :
    (vecNorm v ≠ 0 → |cosineScore v v - 1| ≤ 1 / 1000000) ∧
    cosineScore a b = cosineScore b a := by
  constructor
  · intro hv
    have hq : normSq v ≠ 0 := fun h => hv ((vecNorm_eq_zero_iff v).mpr h)
    have hp : 0 < normSq v := lt_of_le_of_ne (normSq_nonneg v) (Ne.symm hq)
    have hone : cosineScore v v = 1 := by
      unfold cosineScore scoreQ
      rw [if_neg (by push_neg; exact ⟨hq, hq⟩)]
      unfold cosToReal
      show ((dotQ v v : ℚ) : ℝ) / Real.sqrt (((fixPos (normSq v * normSq v) : ℚ)) : ℝ) = 1
      rw [fixPos_of_pos (mul_pos hp hp)]
      have hdv : dotQ v v = normSq v := rfl
      rw [hdv]
      have hcast : (((normSq v * normSq v : ℚ)) : ℝ) =
          ((normSq v : ℚ) : ℝ) * ((normSq v : ℚ) : ℝ) := by push_cast; ring
      rw [hcast, Real.sqrt_mul_self (by exact_mod_cast hp.le)]
      exact div_self (by exact_mod_cast hq)
    rw [hone]
    norm_num
  · unfold cosineScore scoreQ
    by_cases hg : normSq a = 0 ∨ normSq b = 0
    · rw [if_pos hg, if_pos (Or.symm hg)]
    · rw [if_neg hg, if_neg (fun h => hg (Or.symm h))]
      rw [dotQ_comm a b, mul_comm]

theorem cosLe_iff (x y : ℚ × ℚ) : cosLe x y = true ↔ cosToReal x ≤ cosToReal y := by
  obtain ⟨d1, s1⟩ := x
  obtain ⟨d2, s2⟩ := y
  have ht1p : 0 < fixPos s1 := fixPos_pos s1
  have ht2p : 0 < fixPos s2 := fixPos_pos s2
  have hr1 : (0:ℝ) < ((fixPos s1 : ℚ) : ℝ) := by exact_mod_cast ht1p
  have hr2 : (0:ℝ) < ((fixPos s2 : ℚ) : ℝ) := by exact_mod_cast ht2p
  have ha : 0 < Real.sqrt ((fixPos s1 : ℚ) : ℝ) := Real.sqrt_pos.mpr hr1
  have hb : 0 < Real.sqrt ((fixPos s2 : ℚ) : ℝ) := Real.sqrt_pos.mpr hr2
  have ha2 : Real.sqrt ((fixPos s1 : ℚ) : ℝ) ^ 2 = ((fixPos s1 : ℚ) : ℝ) :=
    Real.sq_sqrt hr1.le
  have hb2 : Real.sqrt ((fixPos s2 : ℚ) : ℝ) ^ 2 = ((fixPos s2 : ℚ) : ℝ) :=
    Real.sq_sqrt hr2.le
  set a := Real.sqrt ((fixPos s1 : ℚ) : ℝ) with hadef
  set b := Real.sqrt ((fixPos s2 : ℚ) : ℝ) with hbdef
  have hreal : cosToReal (d1, s1) ≤ cosToReal (d2, s2) ↔
      (d1 : ℝ) * b ≤ (d2 : ℝ) * a := by
    unfold cosToReal
    exact div_le_div_iff₀ ha hb
  rw [hreal]
  unfold cosLe
  by_cases hx : d1 ≤ 0
  · rw [if_pos hx]
    have hxr : (d1 : ℝ) ≤ 0 := by exact_mod_cast hx
    by_cases hy : (0:ℚ) ≤ d2
    · have hyr : (0:ℝ) ≤ (d2 : ℝ) := by exact_mod_cast hy
      apply iff_of_true
      · simp [hy]
      · have h1 : (d1 : ℝ) * b ≤ 0 := mul_nonpos_of_nonpos_of_nonneg hxr hb.le
        have h2 : (0:ℝ) ≤ (d2 : ℝ) * a := mul_nonneg hyr ha.le
        linarith
    · have hy' : d2 < 0 := lt_of_not_ge hy
      have hyr : (d2 : ℝ) < 0 := by exact_mod_cast hy'
      rw [show (decide (0 ≤ d2)) = false from decide_eq_false hy]
      rw [Bool.false_or, decide_eq_true_eq]
      constructor
      · intro h
        have hq : ((d2:ℝ))^2 * ((fixPos s1 : ℚ):ℝ) ≤ ((d1:ℝ))^2 * ((fixPos s2 : ℚ):ℝ) := by
          exact_mod_cast h
        rw [← ha2, ← hb2] at hq
        nlinarith [mul_pos ha hb, mul_nonpos_of_nonpos_of_nonneg hxr hb.le,
          mul_neg_of_neg_of_pos hyr ha]
      · intro h
        have hq : ((d2:ℝ))^2 * a^2 ≤ ((d1:ℝ))^2 * b^2 := by
          nlinarith [mul_nonpos_of_nonpos_of_nonneg hxr hb.le,
            mul_neg_of_neg_of_pos hyr ha]
        rw [ha2, hb2] at hq
        exact_mod_cast hq
  · rw [if_neg hx]
    have hx' : (0:ℚ) < d1 := lt_of_not_ge hx
    have hxr : (0:ℝ) < (d1 : ℝ) := by exact_mod_cast hx'
    by_cases hy : (0:ℚ) < d2
    · have hyr : (0:ℝ) < (d2 : ℝ) := by exact_mod_cast hy
      rw [show (decide (0 < d2)) = true from decide_eq_true hy]
      rw [Bool.true_and, decide_eq_true_eq]
      constructor
      · intro h
        have hq : ((d1:ℝ))^2 * ((fixPos s2 : ℚ):ℝ) ≤ ((d2:ℝ))^2 * ((fixPos s1 : ℚ):ℝ) := by
          exact_mod_cast h
        rw [← ha2, ← hb2] at hq
        nlinarith [mul_pos hxr hb, mul_pos hyr ha]
      · intro h
        have hq : ((d1:ℝ))^2 * b^2 ≤ ((d2:ℝ))^2 * a^2 := by
          nlinarith [mul_pos hxr hb, mul_pos hyr ha]
        rw [ha2, hb2] at hq
        exact_mod_cast hq
    · have hy' : d2 ≤ 0 := le_of_not_gt hy
      have hyr : (d2 : ℝ) ≤ 0 := by exact_mod_cast hy'
      apply iff_of_false
      · simp [hy]
      · intro h
        have h1 : (0:ℝ) < (d1 : ℝ) * b := mul_pos hxr hb
        have h2 : (d2 : ℝ) * a ≤ 0 := mul_nonpos_of_nonpos_of_nonneg hyr ha.le
        linarith

theorem rankB_iff (x y : Scored) : rankB x y = true ↔
    (cosToReal y.cos < cosToReal x.cos ∨
      (cosToReal x.cos = cosToReal y.cos ∧ x.idx ≤ y.idx)) := by
  unfold rankB
  cases hb1 : cosLe x.cos y.cos with
  | false =>
    have hx : ¬ (cosToReal x.cos ≤ cosToReal y.cos) := by
      intro hc
      rw [(cosLe_iff x.cos y.cos).mpr hc] at hb1
      exact Bool.noConfusion hb1
    simp only [Bool.false_eq_true, if_false]
    exact iff_of_true trivial (Or.inl (lt_of_not_ge hx))
  | true =>
    have hx : cosToReal x.cos ≤ cosToReal y.cos := (cosLe_iff _ _).mp hb1
    simp only [if_true]
    rw [Bool.and_eq_true, decide_eq_true_eq]
    constructor
    · intro ⟨h1, h2⟩
      exact Or.inr ⟨le_antisymm hx ((cosLe_iff _ _).mp h1), h2⟩
    · intro h
      rcases h with h | ⟨heq, hidx⟩
      · exact absurd hx (not_le.mpr h)
      · exact ⟨(cosLe_iff _ _).mpr (le_of_eq heq.symm), hidx⟩

theorem rankRel_total (x y : Scored) : rankRel x y ∨ rankRel y x := by
  show rankB x y = true ∨ rankB y x = true
  rcases lt_trichotomy (cosToReal x.cos) (cosToReal y.cos) with h | h | h
  · exact Or.inr ((rankB_iff y x).mpr (Or.inl h))
  · rcases Nat.le_total x.idx y.idx with hi | hi
    · exact Or.inl ((rankB_iff x y).mpr (Or.inr ⟨h, hi⟩))
    · exact Or.inr ((rankB_iff y x).mpr (Or.inr ⟨h.symm, hi⟩))
  · exact Or.inl ((rankB_iff x y).mpr (Or.inl h))

theorem rankRel_trans (x y z : Scored) (h1 : rankRel x y) (h2 : rankRel y z) :
    rankRel x z := by
  have h1' := (rankB_iff x y).mp h1
  have h2' := (rankB_iff y z).mp h2
  apply (rankB_iff x z).mpr
  rcases h1' with h1' | ⟨he1, hi1⟩
  · rcases h2' with h2' | ⟨he2, hi2⟩
    · exact Or.inl (lt_trans h2' h1')
    · exact Or.inl (he2 ▸ h1')
  · rcases h2' with h2' | ⟨he2, hi2⟩
    · exact Or.inl (lt_of_lt_of_le h2' (le_of_eq he1.symm))
    · exact Or.inr ⟨he1.trans he2, Nat.le_trans hi1 hi2⟩

theorem rankedAll_length (store : List IndexEntry) (q : List ℚ) :
    (rankedAll store q).length = store.length := by
  unfold rankedAll
  rw [(List.perm_insertionSort rankRel _).length_eq]
  simp

theorem rankedAll_sorted (store : List IndexEntry) (q : List ℚ) :
    List.Pairwise rankRel (rankedAll store q) := by
  haveI : IsTotal Scored rankRel := ⟨rankRel_total⟩
  haveI : IsTrans Scored rankRel := ⟨rankRel_trans⟩
  exact List.sorted_insertionSort rankRel _

theorem rankedAll_idx_ne (store : List IndexEntry) (q : List ℚ) :
    List.Pairwise (fun x y : Scored => x.idx ≠ y.idx) (rankedAll store q) := by
  unfold rankedAll
  rw [(List.perm_insertionSort rankRel _).pairwise_iff (fun h => Ne.symm h)]
  rw [List.pairwise_map]
  have h3 : List.Pairwise (fun u v : Nat => u ≠ v) (List.map Prod.fst store.enum) :=
    List.nodup_enum_map_fst store
  rw [List.pairwise_map] at h3
  exact h3.imp (fun hne => hne)

theorem mem_rankedAll (store : List IndexEntry) (q : List ℚ) :
    ∀ x ∈ rankedAll store q, ∃ e ∈ store, x.sid = e.id ∧ x.cos = scoreQ q e.vec := by
  intro x hx
  unfold rankedAll at hx
  rw [(List.perm_insertionSort rankRel _).mem_iff] at hx
  rcases List.mem_map.mp hx with ⟨p, hp, rfl⟩
  refine ⟨p.2, ?_, rfl, rfl⟩
  have : p.2 ∈ List.map Prod.snd store.enum := List.mem_map_of_mem Prod.snd hp
  rwa [List.enum_map_snd] at this

/-- C4: for every store state with n entries, query vector and k > 0,
search returns at most min(k, n) results, ordered by non-increasing score
with equal-score entries ordered by insertion order (earlier-added first,
witnessed by the strictly increasing store positions); for k <= 0 search
returns a validation error. -/
theorem search_spec (store : List IndexEntry) (q : List ℚ) (k : Int) :
    (k ≤ 0 → searchStore store q k = Except.error RagError.validationError) ∧
    (0 < k →
      searchStore store q k =
        Except.ok (((rankedAll store q).take k.toNat).map (fun x => (x.sid, x.cos))) ∧
      ((rankedAll store q).take k.toNat).length ≤ min k.toNat store.length ∧
      List.Pairwise (fun x y : Scored =>
        cosToReal y.cos ≤ cosToReal x.cos ∧
        (cosToReal x.cos = cosToReal y.cos → x.idx < y.idx))
        ((rankedAll store q).take k.toNat) ∧
      (∀ x ∈ (rankedAll store q).take k.toNat,
        ∃ e ∈ store, x.sid = e.id ∧ x.cos = scoreQ q e.vec)) := by
  constructor
  · intro h
    unfold searchStore
    rw [if_pos h]
  · intro h
    refine ⟨?_, ?_, ?_, ?_⟩
    · unfold searchStore
      rw [if_neg (by omega)]
    · rw [List.length_take, rankedAll_length]
    · have hsorted := rankedAll_sorted store q
      have hne := rankedAll_idx_ne store q
      have hcomb := hsorted.and hne
      have htake := hcomb.sublist (List.take_sublist k.toNat _)
      refine htake.imp ?_
      intro x y hxy
      obtain ⟨hrank, hidx⟩ := hxy
      rcases (rankB_iff x y).mp hrank with hlt | ⟨heq, hle⟩
      · exact ⟨le_of_lt hlt, fun he => absurd he hlt.ne'⟩
      · exact ⟨le_of_eq heq.symm, fun _ => lt_of_le_of_ne hle hidx⟩
    · intro x hx
      exact mem_rankedAll store q x (List.mem_of_mem_take hx)

/-- C7: deleting a present id returns true, the id appears in no result
of any subsequent search, and a second delete of the same id returns
false; deleting an absent id returns false and leaves the store
unchanged. -/
theorem delete_spec (store : List IndexEntry) (did : String) :
    (store.any (fun e => e.id == did) = true →
      (deleteStore store did).1 = true ∧
      (∀ e ∈ (deleteStore store did).2, e.id ≠ did) ∧
      (deleteStore (deleteStore store did).2 did).1 = false ∧
      (∀ q k res, searchStore (deleteStore store did).2 q k = Except.ok res →
        ∀ p ∈ res, p.1 ≠ did)) ∧
    (store.any (fun e => e.id == did) = false →
      deleteStore store did = (false, store)) := by
  constructor
  · intro hpresent
    have hdel : deleteStore store did = (true, store.filter (fun e => e.id != did)) := by
      unfold deleteStore
      rw [if_pos hpresent]
    have hmem : ∀ e ∈ (deleteStore store did).2, e.id ≠ did := by
      intro e he
      rw [hdel] at he
      have := List.of_mem_filter he
      simpa using this
    refine ⟨by rw [hdel], hmem, ?_, ?_⟩
    · rw [hdel]
      show (deleteStore (store.filter (fun e => e.id != did)) did).1 = false
      have hany : (store.filter (fun e => e.id != did)).any (fun e => e.id == did) = false := by
        rw [List.any_eq_false]
        intro e he
        have := List.of_mem_filter he
        simpa using this
      unfold deleteStore
      rw [if_neg (by rw [hany]; exact Bool.false_ne_true)]
    · intro q k res hres p hp
      unfold searchStore at hres
      by_cases hk : k ≤ 0
      · rw [if_pos hk] at hres
        exact absurd hres (by simp)
      · rw [if_neg hk] at hres
        have hres' := Except.ok.inj hres
        rw [← hres'] at hp
        rcases List.mem_map.mp hp with ⟨x, hx, rfl⟩
        have hxr := mem_rankedAll _ q x (List.mem_of_mem_take hx)
        rcases hxr with ⟨e, he, hsid, _⟩
        rw [hsid]
        exact hmem e he
  · intro habsent
    unfold deleteStore
    rw [if_neg (by rw [habsent]; exact Bool.false_ne_true)]

/-- Witness for C5 at concrete vectors: a unit vector against itself and a
zero vector. -/
theorem cosine_never_divides_by_zero_witness :
    vecNorm [(1:ℚ)] ≠ 0 ∧
    cosineScore [(1:ℚ)] [(1:ℚ)] =
      ((dotQ [(1:ℚ)] [(1:ℚ)] : ℚ) : ℝ) / (vecNorm [(1:ℚ)] * vecNorm [(1:ℚ)]) ∧
    cosineScore [(0:ℚ)] [(1:ℚ)] = 0 := by
  have hn1 : normSq [(1:ℚ)] = 1 := by norm_num [normSq, dotQ]
  have h1 : vecNorm [(1:ℚ)] ≠ 0 := by
    unfold vecNorm
    rw [hn1]
    simp
  have hn0 : normSq [(0:ℚ)] = 0 := by norm_num [normSq, dotQ]
  have h0 : vecNorm [(0:ℚ)] = 0 := by
    unfold vecNorm
    rw [hn0]
    simp
  exact ⟨h1, ((cosine_never_divides_by_zero [(1:ℚ)] [(1:ℚ)]).2 h1 h1).1,
    (cosine_never_divides_by_zero [(0:ℚ)] [(1:ℚ)]).1 (Or.inl h0)⟩

/-- Witness for C6 at the concrete vector (3, 4). -/
theorem cosine_self_one_and_symm_witness :
    vecNorm [(3:ℚ), 4] ≠ 0 ∧
    |cosineScore [(3:ℚ), 4] [(3:ℚ), 4] - 1| ≤ 1 / 1000000 := by
  have hn : normSq [(3:ℚ), 4] = 25 := by norm_num [normSq, dotQ]
  have h : vecNorm [(3:ℚ), 4] ≠ 0 := by
    unfold vecNorm
    rw [hn]
    norm_num
  exact ⟨h, (cosine_self_one_and_symm [(3:ℚ), 4] [] []).1 h⟩

/-- Witness for C4 at a concrete two-entry store, for both a positive and
a non-positive k. -/
theorem search_spec_witness :
    (0:Int) < 2 ∧ ((-1:Int) ≤ 0) ∧
    searchStore [⟨"a", [(1:ℚ)]⟩, ⟨"b", [(1:ℚ)]⟩] [(1:ℚ)] 2 =
      Except.ok
        (((rankedAll [⟨"a", [(1:ℚ)]⟩, ⟨"b", [(1:ℚ)]⟩] [(1:ℚ)]).take (2:Int).toNat).map
          (fun x => (x.sid, x.cos))) ∧
    searchStore [⟨"a", [(1:ℚ)]⟩, ⟨"b", [(1:ℚ)]⟩] [(1:ℚ)] (-1) =
      Except.error RagError.validationError :=
  ⟨by decide, by decide,
   ((search_spec [⟨"a", [(1:ℚ)]⟩, ⟨"b", [(1:ℚ)]⟩] [(1:ℚ)] 2).2 (by decide)).1,
   (search_spec [⟨"a", [(1:ℚ)]⟩, ⟨"b", [(1:ℚ)]⟩] [(1:ℚ)] (-1)).1 (by decide)⟩

/-- Witness for C7 at a concrete one-entry store, for both a present and
an absent id. -/
theorem delete_spec_witness :
    (([⟨"a", [(1:ℚ)]⟩] : List IndexEntry).any (fun e => e.id == "a") = true) ∧
    (([⟨"a", [(1:ℚ)]⟩] : List IndexEntry).any (fun e => e.id == "z") = false) ∧
    (deleteStore [⟨"a", [(1:ℚ)]⟩] "a").1 = true ∧
    deleteStore [⟨"a", [(1:ℚ)]⟩] "z" = (false, [⟨"a", [(1:ℚ)]⟩]) :=
  ⟨by decide, by decide,
   ((delete_spec [⟨"a", [(1:ℚ)]⟩] "a").1 (by decide)).1,
   (delete_spec [⟨"a", [(1:ℚ)]⟩] "z").2 (by decide)⟩
